import Mathlib

/-!
Shallow embedding of the numeric core of the af-analyzer repository
(src/core/preprocessing.py and src/core/tangent_analysis.py), with
theorems checking the specification claims against it.

Python floats are modelled by exact rationals, numpy arrays by lists,
and a raised ValueError by an explicit error value.  Every function is
translated from the source file it names.
-/

/-- Error kinds of the core, one per distinct raise site of the Python
source (all of which raise ValueError with a message). -/
inductive AnalysisError where
  | lengthMismatch
  | insufficientPoints
  | emptyRange
  | invalidParameter
  | emptyInput
  | outOfBounds
deriving DecidableEq, Repr

deriving instance DecidableEq for Except

/-- Insertion of an element into a sorted list of rationals. -/
def insertSorted (x : ℚ) : List ℚ → List ℚ
  | [] => [x]
  | y :: ys => if x ≤ y then x :: y :: ys else y :: insertSorted x ys

/-- Ascending insertion sort, used to take medians. -/
def sortQ : List ℚ → List ℚ
  | [] => []
  | x :: xs => insertSorted x (sortQ xs)

/-- Median as numpy computes it: sort, then average the two middle
elements (for odd length both picks coincide).  Callers guard against
the empty list. -/
def npMedian (l : List ℚ) : ℚ :=
  let s := sortQ l
  let n := l.length
  (s.getD ((n - 1) / 2) 0 + s.getD (n / 2) 0) / 2

/-- Absolute value of a rational, written out as the code computes it
(numpy.abs). -/
def qabs (a : ℚ) : ℚ := if a < 0 then -a else a

theorem qabs_eq_abs (a : ℚ) : qabs a = |a| := by
  unfold qabs
  rcases lt_or_le a 0 with h | h
  · rw [if_pos h, abs_of_neg h]
  · rw [if_neg (not_lt.mpr h), abs_of_nonneg h]

theorem qabs_nonneg (a : ℚ) : 0 ≤ qabs a := by
  rw [qabs_eq_abs]; exact abs_nonneg a

/-- Tolerance test of numpy.isclose with its default absolute tolerance
1e-8 and relative tolerance 1e-5. -/
def np_isclose (a b : ℚ) : Prop :=
  qabs (a - b) ≤ 1 / 100000000 + (1 / 100000) * qabs b

instance (a b : ℚ) : Decidable (np_isclose a b) := by
  unfold np_isclose; infer_instance

/-- Translation of find_intersection (src/core/tangent_analysis.py).
The NaN returned for numerically equal slopes is modelled by none. -/
def find_intersection (slope1 intercept1 slope2 intercept2 : ℚ) : Option ℚ :=
  if np_isclose slope1 slope2 then none
  else some ((intercept2 - intercept1) / (slope1 - slope2))

/-- Maximum of the absolute values of a list, zero for the empty list. -/
def maxAbsVal : List ℚ → ℚ
  | [] => 0
  | x :: xs => if maxAbsVal xs > qabs x then maxAbsVal xs else qabs x

/-- First index attaining the maximal absolute value, as
numpy.argmax(numpy.abs(l)) computes it: a later element wins only when
strictly greater. -/
def argmaxAbs : List ℚ → ℕ
  | [] => 0
  | x :: xs => if maxAbsVal xs > qabs x then argmaxAbs xs + 1 else 0

/-- Translation of find_max_slope_index (src/core/tangent_analysis.py):
index of the maximum absolute derivative, shifted by the offset and
clipped into the valid index range. -/
def find_max_slope_index (derivatives : List ℚ) (offset : ℤ) :
    Except AnalysisError ℕ :=
  if derivatives.length = 0 then .error .emptyInput
  else
    let maxAbsIdx : ℤ := argmaxAbs derivatives
    let adjusted : ℤ := maxAbsIdx + offset
    .ok (max 0 (min adjusted ((derivatives.length : ℤ) - 1))).toNat

/-- Gradient entry at index i, following numpy.gradient with a
coordinate array and edge order 1: one-sided differences at the two
endpoints, and at interior points the second-order central scheme for
possibly non-uniform spacing. -/
def gradientAt (t v : ℕ → ℚ) (n i : ℕ) : ℚ :=
  if i = 0 then (v 1 - v 0) / (t 1 - t 0)
  else if i = n - 1 then (v (n - 1) - v (n - 2)) / (t (n - 1) - t (n - 2))
  else
    let dx1 := t i - t (i - 1)
    let dx2 := t (i + 1) - t i
    (-dx2 / (dx1 * (dx1 + dx2))) * v (i - 1)
      + ((dx2 - dx1) / (dx1 * dx2)) * v i
      + (dx1 / (dx2 * (dx1 + dx2))) * v (i + 1)

/-- Pointwise gradient of values with respect to temps, numpy.gradient
style. -/
def np_gradient (temps values : List ℚ) : List ℚ :=
  (List.range values.length).map
    (gradientAt (fun j => temps.getD j 0) (fun j => values.getD j 0)
      values.length)

/-- Translation of compute_derivative (src/core/tangent_analysis.py). -/
def compute_derivative (temps values : List ℚ) :
    Except AnalysisError (List ℚ) :=
  if temps.length ≠ values.length then .error .lengthMismatch
  else if temps.length < 2 then .error .insufficientPoints
  else .ok (np_gradient temps values)

/-- Translation of compute_tangent_at_point
(src/core/tangent_analysis.py): line through the indexed point with the
indexed derivative as slope. -/
def compute_tangent_at_point (temps values derivatives : List ℚ)
    (index : ℕ) : Except AnalysisError (ℚ × ℚ) :=
  if ¬ index < temps.length then .error .outOfBounds
  else if temps.length ≠ values.length ∨ temps.length ≠ derivatives.length
    then .error .lengthMismatch
  else
    let slope := derivatives.getD index 0
    let x0 := temps.getD index 0
    let y0 := values.getD index 0
    .ok (slope, y0 - slope * x0)

/-- Maximum of two rationals, written as an executable conditional. -/
def qmax (a b : ℚ) : ℚ := if a ≤ b then b else a

/-- Largest element of a list of rationals (numpy.nanmax on NaN-free
data); zero for the empty list. -/
def listMaxQ : List ℚ → ℚ
  | [] => 0
  | x :: xs => (xs.foldl qmax x)

/-- Smallest element of a list of rationals (numpy.nanmin on NaN-free
data); zero for the empty list. -/
def listMinQ : List ℚ → ℚ
  | [] => 0
  | x :: xs => (xs.foldl (fun a b => if a ≤ b then a else b) x)

/-- Piecewise-linear interpolation of numpy.interp at a single query
point: clamped to the first and last sample outside the sample range,
linear between consecutive samples inside it. -/
def interpGo (x x0 y0 : ℚ) : List ℚ → List ℚ → ℚ
  | [], _ => y0
  | _, [] => y0
  | x1 :: xs, y1 :: ys =>
      if x ≤ x1 then y0 + (y1 - y0) * (x - x0) / (x1 - x0)
      else interpGo x x1 y1 xs ys

/-- Entry point of the numpy.interp model: xp must be increasing. -/
def np_interp (x : ℚ) (xp fp : List ℚ) : ℚ :=
  match xp, fp with
  | [], _ => 0
  | _, [] => 0
  | x0 :: xs, y0 :: ys => if x ≤ x0 then y0 else interpGo x x0 y0 xs ys

/-- Window parameter as remove_outliers adapts it: floor 11, then made
odd. -/
def forcedWindow (window : ℕ) : ℕ :=
  let w := max window 11
  if w % 2 = 0 then w + 1 else w

/-- Boundary margin of remove_outliers: max(window / 2, 3). -/
def boundaryOf (w : ℕ) : ℕ := max (w / 2) 3

/-- Centered rolling median of pandas Series.rolling(window, center,
min_periods).median(): at index i the window is the intersection of
[i - w/2, i + w/2] with the index range, and the median is defined only
when the window holds at least min_periods points. -/
def rollingMedian (working : List ℚ) (w : ℕ) : List (Option ℚ) :=
  let n := working.length
  let minp := w / 2 + 1
  (List.range n).map (fun i =>
    let lo := i - w / 2
    let hi := min (n - 1) (i + w / 2)
    let win := (working.drop lo).take (hi + 1 - lo)
    if minp ≤ win.length then some (npMedian win) else none)

/-- Absolute deviation of each working value from its rolling median;
none models the NaN produced by an undefined rolling median. -/
def deviationsOf (working : List ℚ) (w : ℕ) : List (Option ℚ) :=
  let n := working.length
  let med := rollingMedian working w
  (List.range n).map (fun i =>
    (med.getD i none).map (fun x => qabs (working.getD i 0 - x)))

/-- Eligibility of an index for scale estimation and for new flags:
outside the boundary margin on both sides and not already flagged. -/
def innerAllowed (n b : ℕ) (mask : List Bool) (i : ℕ) : Bool :=
  decide (b ≤ i) && decide (i + b < n) && !(mask.getD i false)

/-- Deviations surviving the boundary, prior-flag and NaN exclusions,
from which the MAD is taken. -/
def validDevs (devs : List (Option ℚ)) (n b : ℕ) (mask : List Bool) :
    List ℚ :=
  (List.range n).filterMap (fun i =>
    if innerAllowed n b mask i then devs.getD i none else none)

/-- Robust scale of an iteration: the MAD, replaced by
max(1% of the value range, 1) when the MAD is zero. -/
def madScale (working vd : List ℚ) : ℚ :=
  let mad := npMedian vd
  if mad = 0 then qmax ((listMaxQ working - listMinQ working) * (1 / 100)) 1
  else mad

/-- New outlier flags of one iteration: deviation strictly above
threshold times the scale, at eligible indices only (an undefined
deviation never flags, as NaN comparisons are false). -/
def newMaskOf (devs : List (Option ℚ)) (n b : ℕ) (mask : List Bool)
    (thr : ℚ) : List Bool :=
  (List.range n).map (fun i =>
    innerAllowed n b mask i &&
      match devs.getD i none with
      | some d => decide (thr < d)
      | none => false)

/-- Replacement step of remove_outliers: every flagged position is
rewritten by linear interpolation of the original values at the
unflagged positions (skipped when fewer than two survive). -/
def interpolateFlagged (values working : List ℚ) (mask : List Bool) :
    List ℚ :=
  let n := working.length
  let normalIdx := (List.range n).filter (fun i => !(mask.getD i false))
  if 2 ≤ normalIdx.length then
    (List.range n).map (fun i =>
      if mask.getD i false then
        np_interp (i : ℚ) (normalIdx.map (fun j => (j : ℚ)))
          (normalIdx.map (fun j => values.getD j 0))
      else working.getD i 0)
  else working

/-- One iteration of the detection loop; none signals one of the two
stopping conditions (no surviving deviations, or no new flags). -/
def outlierStep (values working : List ℚ) (mask : List Bool) (w : ℕ)
    (threshold : ℚ) : Option (List ℚ × List Bool) :=
  let n := working.length
  let devs := deviationsOf working w
  let b := boundaryOf w
  let vd := validDevs devs n b mask
  if vd.length = 0 then none
  else
    let nm := newMaskOf devs n b mask (threshold * madScale working vd)
    if nm.any (fun x => x) = false then none
    else
      let combined := (List.range n).map
        (fun i => mask.getD i false || nm.getD i false)
      some (interpolateFlagged values working combined, combined)

/-- Detection loop of remove_outliers, at most max_iterations passes. -/
def outlierLoop (values : List ℚ) (w : ℕ) (threshold : ℚ) :
    ℕ → List ℚ → List Bool → List ℚ × List Bool
  | 0, working, mask => (working, mask)
  | fuel + 1, working, mask =>
      match outlierStep values working mask w threshold with
      | none => (working, mask)
      | some (working2, mask2) =>
          outlierLoop values w threshold fuel working2 mask2

/-- Translation of remove_outliers (src/core/preprocessing.py is the
source; the short-series check precedes the window adaptation there). -/
def remove_outliers (temps values : List ℚ) (window : ℕ) (threshold : ℚ)
    (max_iterations : ℕ) :
    Except AnalysisError (List ℚ × List ℚ × List Bool) :=
  if temps.length ≠ values.length then .error .lengthMismatch
  else if values.length < window + 2 then
    .ok (temps, values, List.replicate values.length false)
  else
    let w := forcedWindow window
    let r := outlierLoop values w threshold max_iterations values
      (List.replicate values.length false)
    .ok (temps, r.1, r.2)

/-- Dot product of two coefficient lists. -/
def qdot (a b : List ℚ) : ℚ := (List.zipWith (· * ·) a b).sum

/-- Gaussian elimination on an augmented matrix (each row being the
coefficients followed by the right-hand side), with explicit fuel;
returns none when no nonzero pivot exists. -/
def solveLin : ℕ → List (List ℚ) → Option (List ℚ)
  | _, [] => some []
  | 0, _ :: _ => none
  | fuel + 1, rows =>
      match rows.find? (fun r => decide (r.headD 0 ≠ 0)) with
      | none => none
      | some p =>
          let rest := rows.eraseP (fun r => decide (r.headD 0 ≠ 0))
          let a := p.headD 0
          let reduced := rest.map (fun s =>
            List.zipWith (fun x y => x - (s.headD 0 / a) * y) s.tail p.tail)
          match solveLin fuel reduced with
          | none => none
          | some cs =>
              some (((p.tail.getLastD 0 - qdot p.tail.dropLast cs) / a) :: cs)

/-- Least-squares polynomial fit of degree deg through the sample points
(xs, ys), evaluated at x, via the normal equations.  Modelled from the
spec: this is the local regression inside scipy.signal.savgol_filter
(an external library, not part of src/), which the spec describes as a
sliding-window polynomial least-squares fit. -/
def polyfitEval (xs ys : List ℚ) (deg : ℕ) (x : ℚ) : ℚ :=
  let rows := (List.range (deg + 1)).map (fun j =>
    ((List.range (deg + 1)).map
      (fun k => (xs.map (fun t => t ^ (j + k))).sum))
      ++ [(List.zipWith (fun t y => t ^ j * y) xs ys).sum])
  match solveLin (deg + 2) rows with
  | some c => (c.enum.map (fun p => p.2 * x ^ p.1)).sum
  | none => 0

/-- Savitzky-Golay filter: each interior point is replaced by the
degree-polyorder least-squares fit over its centered window, and the
two edge regions by the fit over the first and last full window
(scipy's interp edge mode).  Modelled from the spec, see polyfitEval. -/
def savgol_filter (values : List ℚ) (wl polyorder : ℕ) : List ℚ :=
  let n := values.length
  let half := wl / 2
  (List.range n).map (fun i =>
    if i < half then
      polyfitEval ((List.range wl).map (fun j => (j : ℚ)))
        (values.take wl) polyorder (i : ℚ)
    else if n ≤ i + half then
      polyfitEval ((List.range wl).map (fun j => ((n - wl + j : ℕ) : ℚ)))
        (values.drop (n - wl)) polyorder (i : ℚ)
    else
      polyfitEval ((List.range wl).map (fun j => ((i - half + j : ℕ) : ℚ)))
        ((values.drop (i - half)).take wl) polyorder (i : ℚ))

/-- Translation of smooth_data (src/core/preprocessing.py): validation
and window correction around the filter call. -/
def smooth_data (temps values : List ℚ) (window_length polyorder : ℕ) :
    Except AnalysisError (List ℚ × List ℚ) :=
  if temps.length ≠ values.length then .error .lengthMismatch
  else if temps.length = 0 then .ok ([], [])
  else
    let wl := if window_length % 2 = 0 then window_length + 1
      else window_length
    if wl ≤ polyorder then .error .invalidParameter
    else if values.length < wl then .error .invalidParameter
    else .ok (temps, savgol_filter values wl polyorder)

/-- Ordinary least-squares line through (xs, ys), as scipy.stats
computes slope and intercept. -/
def linregress (xs ys : List ℚ) : ℚ × ℚ :=
  let n : ℚ := xs.length
  let sx := xs.sum
  let sy := ys.sum
  let sxx := (xs.map (fun x => x * x)).sum
  let sxy := (List.zipWith (· * ·) xs ys).sum
  let slope := (n * sxy - sx * sy) / (n * sxx - sx * sx)
  (slope, (sy - slope * sx) / n)

/-- Translation of fit_baseline (src/core/tangent_analysis.py). -/
def fit_baseline (temps values : List ℚ) (t_start t_end : ℚ) :
    Except AnalysisError (ℚ × ℚ) :=
  let pairs := (List.zip temps values).filter
    (fun p => decide (t_start ≤ p.1) && decide (p.1 ≤ t_end))
  if pairs.length = 0 then .error .emptyRange
  else if pairs.length < 2 then .error .insufficientPoints
  else .ok (linregress (pairs.map Prod.fst) (pairs.map Prod.snd))

/-- Value kinds a result record entry can carry: an optionally undefined
temperature, a line, a count, or a series of points. -/
inductive ResultValue where
  | num : Option ℚ → ResultValue
  | line : ℚ → ℚ → ResultValue
  | count : ℕ → ResultValue
  | series : List ℚ → List ℚ → ResultValue
deriving DecidableEq, Repr

/-- Test whether a record entry value is a series of points. -/
def ResultValue.isSeries : ResultValue → Bool
  | .series _ _ => true
  | _ => false

/-- Test whether any entry of a result record carries a series. -/
def resultHasSeries (r : List (String × ResultValue)) : Bool :=
  r.any (fun kv => kv.2.isSeries)

/-- Translation of analyze_channel (src/core/tangent_analysis.py): the
orchestrator; the returned dictionary is modelled as a key-value list in
construction order. -/
def analyze_channel (temps values : List ℚ)
    (low_range high_range : ℚ × ℚ) (smooth_params : ℕ × ℕ)
    (slope_offset : ℤ) (outlier_params : ℕ × ℚ) :
    Except AnalysisError (List (String × ResultValue)) :=
  if temps.length ≠ values.length then .error .lengthMismatch
  else if temps.length < 10 then .error .insufficientPoints
  else
    match remove_outliers temps values outlier_params.1 outlier_params.2 3 with
    | .error e => .error e
    | .ok (tempsClean, valuesClean, outlierMask) =>
      match smooth_data tempsClean valuesClean smooth_params.1 smooth_params.2 with
      | .error e => .error e
      | .ok (tempsSmooth, valuesSmooth) =>
        match compute_derivative tempsSmooth valuesSmooth with
        | .error e => .error e
        | .ok derivatives =>
          match find_max_slope_index derivatives slope_offset with
          | .error e => .error e
          | .ok maxSlopeIdx =>
            match compute_tangent_at_point tempsSmooth valuesSmooth
                derivatives maxSlopeIdx with
            | .error e => .error e
            | .ok (tangentSlope, tangentIntercept) =>
              match fit_baseline tempsSmooth valuesSmooth
                  low_range.1 low_range.2 with
              | .error e => .error e
              | .ok (lowSlope, lowIntercept) =>
                match fit_baseline tempsSmooth valuesSmooth
                    high_range.1 high_range.2 with
                | .error e => .error e
                | .ok (highSlope, highIntercept) =>
                  .ok [("As", .num (find_intersection tangentSlope
                          tangentIntercept lowSlope lowIntercept)),
                       ("Af_tan", .num (find_intersection tangentSlope
                          tangentIntercept highSlope highIntercept)),
                       ("max_slope_temp",
                          .num (some (tempsSmooth.getD maxSlopeIdx 0))),
                       ("low_baseline", .line lowSlope lowIntercept),
                       ("high_baseline", .line highSlope highIntercept),
                       ("tangent", .line tangentSlope tangentIntercept),
                       ("outlier_count", .count (outlierMask.count true))]


/-! Helper lemmas about the list encodings. -/

theorem getD_range_map {α : Type} (f : ℕ → α) (n i : ℕ) (d : α) :
    ((List.range n).map f).getD i d = if i < n then f i else d := by
  by_cases h : i < n
  · rw [if_pos h, List.getD_eq_getElem?_getD, List.getElem?_map,
      List.getElem?_range h]
    rfl
  · rw [if_neg h, List.getD_eq_getElem?_getD, List.getElem?_eq_none]
    · rfl
    · simpa using not_lt.mp h

theorem length_range_map {α : Type} (f : ℕ → α) (n : ℕ) :
    ((List.range n).map f).length = n := by
  simp

theorem np_isclose_refl (s : ℚ) : np_isclose s s := by
  unfold np_isclose
  have h0 : qabs (s - s) = 0 := by rw [sub_self]; simp [qabs]
  rw [h0]
  have h1 : 0 ≤ qabs s := qabs_nonneg s
  nlinarith

/-- C4: find_intersection returns (intercept2 − intercept1) divided by
(slope1 − slope2) when the slopes are not numerically equal, and the
undefined sentinel (none) when they are numerically equal within the
tolerance of numpy.isclose; and on (2, 10, −1, 25) it returns 5. -/
theorem find_intersection_contract :
    (∀ s1 i1 s2 i2 : ℚ, ¬ np_isclose s1 s2 →
      find_intersection s1 i1 s2 i2 = some ((i2 - i1) / (s1 - s2))) ∧
    (∀ s1 i1 s2 i2 : ℚ, np_isclose s1 s2 →
      find_intersection s1 i1 s2 i2 = none) ∧
    find_intersection 2 10 (-1) 25 = some 5 := by
  refine ⟨?_, ?_, ?_⟩
  · intro s1 i1 s2 i2 h
    simp [find_intersection, h]
  · intro s1 i1 s2 i2 h
    simp [find_intersection, h]
  · norm_num [find_intersection, np_isclose, qabs]

/-- Witness for C4 at concrete lines. -/
theorem find_intersection_contract_witness :
    find_intersection 2 10 (-1) 25 = some ((25 - 10 : ℚ) / (2 - (-1))) ∧
    find_intersection 2 10 2 20 = none :=
  ⟨find_intersection_contract.1 2 10 (-1) 25
      (by norm_num [np_isclose, qabs]),
   find_intersection_contract.2.1 2 10 2 20 (np_isclose_refl 2)⟩

/-- C9: find_intersection is total (it always returns none or a value),
exact slope equality lands in the numerically-equal branch, and on the
division branch the denominator slope1 − slope2 is never zero. -/
theorem find_intersection_total_and_guarded :
    (∀ s1 s2 : ℚ, s1 = s2 → np_isclose s1 s2) ∧
    (∀ s1 i1 s2 i2 x : ℚ, find_intersection s1 i1 s2 i2 = some x →
      s1 - s2 ≠ 0) ∧
    (∀ s1 i1 s2 i2 : ℚ, find_intersection s1 i1 s2 i2 = none ∨
      ∃ x, find_intersection s1 i1 s2 i2 = some x) := by
  refine ⟨?_, ?_, ?_⟩
  · intro s1 s2 h
    subst h
    exact np_isclose_refl s1
  · intro s1 i1 s2 i2 x h
    unfold find_intersection at h
    split at h
    · exact absurd h (by simp)
    · rename_i hc
      intro h0
      exact hc (sub_eq_zero.mp h0 ▸ np_isclose_refl s2)
  · intro s1 i1 s2 i2
    unfold find_intersection
    split
    · exact Or.inl rfl
    · exact Or.inr ⟨_, rfl⟩

/-- Witness for C9 at a concrete line pair. -/
theorem find_intersection_total_witness :
    np_isclose 3 3 ∧ (2 : ℚ) - (-1) ≠ 0 :=
  ⟨find_intersection_total_and_guarded.1 3 3 rfl,
   find_intersection_total_and_guarded.2.1 2 10 (-1) 25 5
     (by norm_num [find_intersection, np_isclose, qabs])⟩

/-- C8: the orchestrator is deterministic: two invocations on equal
inputs and equal parameters return equal results. -/
theorem analyze_channel_deterministic :
    ∀ (t1 v1 t2 v2 : List ℚ) (lr1 hr1 lr2 hr2 : ℚ × ℚ)
      (sp1 sp2 : ℕ × ℕ) (so1 so2 : ℤ) (op1 op2 : ℕ × ℚ),
      t1 = t2 → v1 = v2 → lr1 = lr2 → hr1 = hr2 → sp1 = sp2 →
      so1 = so2 → op1 = op2 →
      analyze_channel t1 v1 lr1 hr1 sp1 so1 op1 =
        analyze_channel t2 v2 lr2 hr2 sp2 so2 op2 := by
  intro t1 v1 t2 v2 lr1 hr1 lr2 hr2 sp1 sp2 so1 so2 op1 op2
  intro h1 h2 h3 h4 h5 h6 h7
  subst h1; subst h2; subst h3; subst h4; subst h5; subst h6; subst h7
  rfl

/-- Witness for C8 at a concrete invocation. -/
theorem analyze_channel_deterministic_witness :
    analyze_channel [0, 1, 2] [5, 5, 5] (0, 1) (1, 2) (3, 1) 0 (5, 5) =
      analyze_channel [0, 1, 2] [5, 5, 5] (0, 1) (1, 2) (3, 1) 0 (5, 5) :=
  analyze_channel_deterministic [0, 1, 2] [5, 5, 5] [0, 1, 2] [5, 5, 5]
    (0, 1) (1, 2) (0, 1) (1, 2) (3, 1) (3, 1) 0 0 (5, 5) (5, 5)
    rfl rfl rfl rfl rfl rfl rfl

/-- C5: smooth_data auto-corrects an even window to the next odd value,
raises InvalidParameter exactly when the corrected window is at most the
polynomial order or exceeds the data length, and returns empty output
for empty input without raising, for any window and order. -/
theorem smooth_data_validation :
    ∀ (temps values : List ℚ) (wl po : ℕ),
      temps.length = values.length →
      ((values.length = 0 → smooth_data temps values wl po = .ok ([], [])) ∧
       (wl % 2 = 0 →
         smooth_data temps values wl po =
           smooth_data temps values (wl + 1) po) ∧
       (values.length ≠ 0 →
         (smooth_data temps values wl po = .error .invalidParameter ↔
           ((if wl % 2 = 0 then wl + 1 else wl) ≤ po ∨
             values.length < (if wl % 2 = 0 then wl + 1 else wl))))) := by
  intro temps values wl po hlen
  refine ⟨?_, ?_, ?_⟩
  · intro h0
    unfold smooth_data
    rw [if_neg (by omega), if_pos (by omega)]
  · intro heven
    have hodd : (wl + 1) % 2 ≠ 0 := by omega
    unfold smooth_data
    rw [if_pos heven, if_neg hodd]
  · intro hne
    have hwl : ∀ w' : ℕ, (smooth_data temps values wl po =
        .error .invalidParameter ↔ _) := fun _ => Iff.rfl
    unfold smooth_data
    rw [if_neg (by omega), if_neg (by omega)]
    set wlc := if wl % 2 = 0 then wl + 1 else wl with hwlc
    by_cases h1 : wlc ≤ po
    · rw [if_pos h1]
      simp [h1]
    · rw [if_neg h1]
      by_cases h2 : values.length < wlc
      · rw [if_pos h2]
        simp [h2]
      · rw [if_neg h2]
        simp [h1, h2]

/-- Witness for C5 at concrete series: a 3-point series with an even
window of 4 (corrected to 5, longer than the data) raises
InvalidParameter, and the empty series passes through. -/
theorem smooth_data_validation_witness :
    smooth_data ([] : List ℚ) ([] : List ℚ) 4 2 = .ok ([], []) ∧
    (smooth_data [1, 2, 3] [4, 5, 6] 4 2 = .error .invalidParameter ↔
      ((if 4 % 2 = 0 then 4 + 1 else 4) ≤ 2 ∨
        ([4, 5, 6] : List ℚ).length < (if 4 % 2 = 0 then 4 + 1 else 4))) :=
  ⟨(smooth_data_validation [] [] 4 2 rfl).1 rfl,
   (smooth_data_validation [1, 2, 3] [4, 5, 6] 4 2 rfl).2.2 (by decide)⟩

/-! Lemmas about the first-occurrence maximum of absolute values. -/

theorem maxAbsVal_nonneg (l : List ℚ) : 0 ≤ maxAbsVal l := by
  induction l with
  | nil => exact le_refl 0
  | cons x xs ih =>
    unfold maxAbsVal
    split
    · exact ih
    · exact qabs_nonneg x

theorem argmaxAbs_lt_length (l : List ℚ) (h : l ≠ []) :
    argmaxAbs l < l.length := by
  induction l with
  | nil => exact absurd rfl h
  | cons x xs ih =>
    unfold argmaxAbs
    split
    · rename_i hgt
      have hxs : xs ≠ [] := by
        intro he
        rw [he] at hgt
        exact absurd hgt (not_lt.mpr (by simpa [maxAbsVal] using qabs_nonneg x))
      simpa using ih hxs
    · simp

theorem getD_argmaxAbs (l : List ℚ) (h : l ≠ []) :
    qabs (l.getD (argmaxAbs l) 0) = maxAbsVal l := by
  induction l with
  | nil => exact absurd rfl h
  | cons x xs ih =>
    by_cases hgt : maxAbsVal xs > qabs x
    · have hxs : xs ≠ [] := by
        intro he
        rw [he] at hgt
        exact absurd hgt (not_lt.mpr (by simpa [maxAbsVal] using qabs_nonneg x))
      rw [show argmaxAbs (x :: xs) = argmaxAbs xs + 1 by
          simp only [argmaxAbs]; rw [if_pos hgt],
        show maxAbsVal (x :: xs) = maxAbsVal xs by
          simp only [maxAbsVal]; rw [if_pos hgt]]
      simpa using ih hxs
    · rw [show argmaxAbs (x :: xs) = 0 by
          simp only [argmaxAbs]; rw [if_neg hgt],
        show maxAbsVal (x :: xs) = qabs x by
          simp only [maxAbsVal]; rw [if_neg hgt]]
      rfl

theorem maxAbsVal_ge (l : List ℚ) :
    ∀ j, j < l.length → qabs (l.getD j 0) ≤ maxAbsVal l := by
  induction l with
  | nil => intro j hj; simp at hj
  | cons x xs ih =>
    intro j hj
    have hm : maxAbsVal (x :: xs) = if maxAbsVal xs > qabs x
        then maxAbsVal xs else qabs x := rfl
    cases j with
    | zero =>
      rw [hm]
      split
      · rename_i hgt
        exact le_of_lt (by simpa using hgt)
      · simp [List.getD]
    | succ j =>
      have hj2 : j < xs.length := by simpa using hj
      have := ih j hj2
      rw [hm]
      split
      · simpa using this
      · rename_i hle
        have : qabs (xs.getD j 0) ≤ qabs x :=
          le_trans (ih j hj2) (not_lt.mp hle)
        simpa using this

theorem lt_of_lt_argmaxAbs (l : List ℚ) :
    ∀ j, j < argmaxAbs l → qabs (l.getD j 0) < maxAbsVal l := by
  induction l with
  | nil => intro j hj; simp [argmaxAbs] at hj
  | cons x xs ih =>
    intro j hj
    by_cases hgt : maxAbsVal xs > qabs x
    · have ha : argmaxAbs (x :: xs) = argmaxAbs xs + 1 := by
        simp only [argmaxAbs]; rw [if_pos hgt]
      have hm : maxAbsVal (x :: xs) = maxAbsVal xs := by
        simp only [maxAbsVal]; rw [if_pos hgt]
      rw [ha] at hj
      rw [hm]
      cases j with
      | zero => simpa [List.getD] using hgt
      | succ j =>
        have := ih j (by omega)
        simpa using this
    · have ha : argmaxAbs (x :: xs) = 0 := by
        simp only [argmaxAbs]; rw [if_neg hgt]
      rw [ha] at hj
      omega

/-- C7: find_max_slope_index rejects the empty input and otherwise
returns the first index of maximal absolute derivative, shifted by the
offset and clipped into the index range; with the spec examples. -/
theorem find_max_slope_index_contract :
    (∀ offset : ℤ, find_max_slope_index [] offset = .error .emptyInput) ∧
    (∀ (ds : List ℚ) (offset : ℤ), ds ≠ [] →
      ∃ i, i < ds.length ∧
        (∀ j, j < ds.length → qabs (ds.getD j 0) ≤ qabs (ds.getD i 0)) ∧
        (∀ j, j < i → qabs (ds.getD j 0) < qabs (ds.getD i 0)) ∧
        find_max_slope_index ds offset =
          .ok (max 0 (min ((i : ℤ) + offset)
            ((ds.length : ℤ) - 1))).toNat) ∧
    find_max_slope_index [1/10, 5/10, 12/10, 8/10, 3/10] 0 = .ok 2 ∧
    find_max_slope_index [1/10, 5/10, 12/10, 8/10, 3/10] 1 = .ok 3 ∧
    find_max_slope_index [1/10, 5/10, 12/10, 8/10, 3/10] 10 = .ok 4 ∧
    find_max_slope_index [1/10, 5/10, 12/10, 8/10, 3/10] (-10) = .ok 0 := by
  refine ⟨?_, ?_, ?_, ?_, ?_, ?_⟩
  · intro offset; rfl
  · intro ds offset h
    refine ⟨argmaxAbs ds, argmaxAbs_lt_length ds h, ?_, ?_, ?_⟩
    · intro j hj
      rw [getD_argmaxAbs ds h]
      exact maxAbsVal_ge ds j hj
    · intro j hj
      rw [getD_argmaxAbs ds h]
      exact lt_of_lt_argmaxAbs ds j hj
    · unfold find_max_slope_index
      rw [if_neg (by simpa using h)]
  · norm_num [find_max_slope_index, argmaxAbs, maxAbsVal, qabs]
    omega
  · norm_num [find_max_slope_index, argmaxAbs, maxAbsVal, qabs]
    omega
  · norm_num [find_max_slope_index, argmaxAbs, maxAbsVal, qabs]
    omega
  · norm_num [find_max_slope_index, argmaxAbs, maxAbsVal, qabs]

/-- Witness for C7 on a concrete derivative list. -/
theorem find_max_slope_index_contract_witness :
    find_max_slope_index [1/10, 5/10, 12/10, 8/10, 3/10] 1 = .ok 3 ∧
    ∃ i, i < ([2, 7] : List ℚ).length ∧
      (∀ j, j < ([2, 7] : List ℚ).length →
        qabs (([2, 7] : List ℚ).getD j 0) ≤
          qabs (([2, 7] : List ℚ).getD i 0)) ∧
      (∀ j, j < i → qabs (([2, 7] : List ℚ).getD j 0) <
        qabs (([2, 7] : List ℚ).getD i 0)) ∧
      find_max_slope_index [2, 7] 0 =
        .ok (max 0 (min ((i : ℤ) + 0) ((([2, 7] : List ℚ).length : ℤ) - 1))).toNat :=
  ⟨find_max_slope_index_contract.2.2.2.1,
   find_max_slope_index_contract.2.1 [2, 7] 0 (by simp)⟩

/-! Lemmas about the outlier-removal loop. -/

theorem getD_eq_default_of_le {α : Type} (l : List α) (i : ℕ) (d : α)
    (h : l.length ≤ i) : l.getD i d = d := by
  rw [List.getD_eq_getElem?_getD, List.getElem?_eq_none (by simpa using h)]
  rfl

theorem interpolateFlagged_length (values working : List ℚ)
    (mask : List Bool) :
    (interpolateFlagged values working mask).length = working.length := by
  simp only [interpolateFlagged]
  split
  · simp
  · rfl

theorem outlierStep_some (values working : List ℚ) (mask : List Bool)
    (w : ℕ) (th : ℚ) (w2 : List ℚ) (m2 : List Bool)
    (hm : mask.length = working.length)
    (h : outlierStep values working mask w th = some (w2, m2)) :
    w2.length = working.length ∧ m2.length = working.length ∧
    (∀ i, m2.getD i false = false →
      mask.getD i false = false ∧ w2.getD i 0 = working.getD i 0) := by
  simp only [outlierStep] at h
  split at h
  · exact absurd h (by simp)
  · split at h
    · exact absurd h (by simp)
    · rw [Option.some_inj, Prod.mk.injEq] at h
      obtain ⟨hw2, hm2⟩ := h
      set n := working.length with hn
      have hm2len : m2.length = n := by
        rw [← hm2]; simp
      refine ⟨by rw [← hw2]; exact interpolateFlagged_length _ _ _,
        hm2len, ?_⟩
      intro i hfalse
      by_cases hi : i < n
      · have hcomb : m2.getD i false =
            (mask.getD i false || ((newMaskOf (deviationsOf working w) n
              (boundaryOf w) mask (th * madScale working
                (validDevs (deviationsOf working w) n (boundaryOf w)
                  mask))).getD i false)) := by
          rw [← hm2, getD_range_map, if_pos hi]
        rw [hcomb] at hfalse
        have hmaskf : mask.getD i false = false := by
          rcases Bool.or_eq_false_iff.mp hfalse with ⟨h1, _⟩
          exact h1
        refine ⟨hmaskf, ?_⟩
        rw [← hw2]
        simp only [interpolateFlagged]
        split
        · rw [getD_range_map, if_pos hi, getD_range_map, if_pos hi, hfalse]
          rw [if_neg (by simp)]
        · rfl
      · have hw2len : w2.length = n := by
          rw [← hw2]; exact interpolateFlagged_length _ _ _
        constructor
        · exact getD_eq_default_of_le mask i false (by omega)
        · rw [getD_eq_default_of_le w2 i 0 (by omega),
            getD_eq_default_of_le working i 0 (by omega)]

theorem outlierLoop_invariant (values : List ℚ) (w : ℕ) (th : ℚ) :
    ∀ (fuel : ℕ) (working : List ℚ) (mask : List Bool),
      working.length = values.length → mask.length = values.length →
      (∀ i, mask.getD i false = false →
        working.getD i 0 = values.getD i 0) →
      ((outlierLoop values w th fuel working mask).1.length =
        values.length ∧
       (outlierLoop values w th fuel working mask).2.length =
        values.length ∧
       (∀ i, (outlierLoop values w th fuel working mask).2.getD i false =
          false →
         (outlierLoop values w th fuel working mask).1.getD i 0 =
          values.getD i 0)) := by
  intro fuel
  induction fuel with
  | zero =>
    intro working mask h1 h2 h3
    exact ⟨h1, h2, h3⟩
  | succ fuel ih =>
    intro working mask h1 h2 h3
    cases hs : outlierStep values working mask w th with
    | none =>
      simp only [outlierLoop, hs]
      exact ⟨h1, h2, h3⟩
    | some p =>
      obtain ⟨w2, m2⟩ := p
      have hstep := outlierStep_some values working mask w th w2 m2
        (h2.trans h1.symm) hs
      simp only [outlierLoop, hs]
      refine ih w2 m2 (hstep.1.trans h1) (hstep.2.1.trans h1) ?_
      intro i hfi
      rcases hstep.2.2 i hfi with ⟨hmaskf, hkeep⟩
      rw [hkeep]
      exact h3 i hmaskf

/-- C2: outlier removal preserves the number of points, and so does
smoothing: the cleaned series, the smoothed series and the input series
all have the same length. -/
theorem pipeline_preserves_length :
    (∀ (temps values : List ℚ) (window : ℕ) (threshold : ℚ)
      (maxIter : ℕ) (tc vc : List ℚ) (mask : List Bool),
      remove_outliers temps values window threshold maxIter =
        .ok (tc, vc, mask) →
      vc.length = values.length ∧ mask.length = values.length) ∧
    (∀ (temps values : List ℚ) (wl po : ℕ) (ts vs : List ℚ),
      smooth_data temps values wl po = .ok (ts, vs) →
      vs.length = values.length ∧ ts.length = temps.length) := by
  constructor
  · intro temps values window threshold maxIter tc vc mask h
    unfold remove_outliers at h
    split at h
    · exact absurd h (by simp)
    · split at h
      · rw [Except.ok.injEq, Prod.mk.injEq, Prod.mk.injEq] at h
        rw [← h.2.1, ← h.2.2]
        simp
      · rw [Except.ok.injEq, Prod.mk.injEq, Prod.mk.injEq] at h
        have hinv := outlierLoop_invariant values (forcedWindow window)
          threshold maxIter values
          (List.replicate values.length false) rfl (by simp)
          (fun i _ => rfl)
        rw [← h.2.1, ← h.2.2]
        exact ⟨hinv.1, hinv.2.1⟩
  · intro temps values wl po ts vs h
    simp only [smooth_data] at h
    split at h
    · exact absurd h (by simp)
    rename_i hlen
    rw [not_ne_iff] at hlen
    split at h
    · rename_i h0
      rw [Except.ok.injEq, Prod.mk.injEq] at h
      rw [← h.1, ← h.2]
      constructor
      · simp [← hlen, h0]
      · simp [h0]
    split at h
    · try dsimp only at h
      split at h
      · exact absurd h (by simp)
      split at h
      · exact absurd h (by simp)
      rw [Except.ok.injEq, Prod.mk.injEq] at h
      rw [← h.1, ← h.2]
      exact ⟨by simp [savgol_filter], rfl⟩
    · try dsimp only at h
      split at h
      · exact absurd h (by simp)
      split at h
      · exact absurd h (by simp)
      rw [Except.ok.injEq, Prod.mk.injEq] at h
      rw [← h.1, ← h.2]
      exact ⟨by simp [savgol_filter], rfl⟩

/-- Witness for C2 on a concrete short series. -/
theorem pipeline_preserves_length_witness :
    (remove_outliers [1, 2, 3] [4, 5, 6] 11 5 3 =
      .ok ([1, 2, 3], [4, 5, 6], List.replicate 3 false)) ∧
    (([4, 5, 6] : List ℚ).length = ([4, 5, 6] : List ℚ).length ∧
      (List.replicate 3 false).length = ([4, 5, 6] : List ℚ).length) ∧
    (smooth_data [1, 2, 3] [4, 5, 6] 3 1 =
      .ok ([1, 2, 3], savgol_filter [4, 5, 6] 3 1)) ∧
    ((savgol_filter [4, 5, 6] 3 1).length = ([4, 5, 6] : List ℚ).length ∧
      ([1, 2, 3] : List ℚ).length = ([1, 2, 3] : List ℚ).length) := by
  have h1 : remove_outliers [1, 2, 3] [4, 5, 6] 11 5 3 =
      .ok ([1, 2, 3], [4, 5, 6], List.replicate 3 false) := by
    unfold remove_outliers
    rw [if_neg (by decide), if_pos (by decide)]
    rfl
  have h2 : smooth_data [1, 2, 3] [4, 5, 6] 3 1 =
      .ok ([1, 2, 3], savgol_filter [4, 5, 6] 3 1) := by
    unfold smooth_data
    rw [if_neg (by decide), if_neg (by decide)]
    norm_num
  exact ⟨h1, pipeline_preserves_length.1 [1, 2, 3] [4, 5, 6] 11 5 3
      [1, 2, 3] [4, 5, 6] (List.replicate 3 false) h1,
    h2, pipeline_preserves_length.2 [1, 2, 3] [4, 5, 6] 3 1
      [1, 2, 3] (savgol_filter [4, 5, 6] 3 1) h2⟩

/-- C10: remove_outliers returns the input temperatures unchanged, and
every value whose final mask entry is false is returned exactly as it
came in. -/
theorem remove_outliers_frame :
    ∀ (temps values : List ℚ) (window : ℕ) (threshold : ℚ)
      (maxIter : ℕ) (tc vc : List ℚ) (mask : List Bool),
      remove_outliers temps values window threshold maxIter =
        .ok (tc, vc, mask) →
      tc = temps ∧
      ∀ i, mask.getD i false = false → vc.getD i 0 = values.getD i 0 := by
  intro temps values window threshold maxIter tc vc mask h
  unfold remove_outliers at h
  split at h
  · exact absurd h (by simp)
  · split at h
    · rw [Except.ok.injEq, Prod.mk.injEq, Prod.mk.injEq] at h
      exact ⟨h.1.symm, fun i _ => by rw [← h.2.1]⟩
    · rw [Except.ok.injEq, Prod.mk.injEq, Prod.mk.injEq] at h
      have hinv := outlierLoop_invariant values (forcedWindow window)
        threshold maxIter values
        (List.replicate values.length false) rfl (by simp)
        (fun i _ => rfl)
      refine ⟨h.1.symm, ?_⟩
      rw [← h.2.1, ← h.2.2]
      exact hinv.2.2

/-- Witness for C10 on a concrete short series. -/
theorem remove_outliers_frame_witness :
    (remove_outliers [1, 2] [7, 9] 11 5 3 =
      .ok ([1, 2], [7, 9], List.replicate 2 false)) ∧
    (∀ i, (List.replicate 2 false).getD i false = false →
      ([7, 9] : List ℚ).getD i 0 = ([7, 9] : List ℚ).getD i 0) := by
  have h1 : remove_outliers [1, 2] [7, 9] 11 5 3 =
      .ok ([1, 2], [7, 9], List.replicate 2 false) := by
    unfold remove_outliers
    rw [if_neg (by decide), if_pos (by decide)]
    rfl
  exact ⟨h1, (remove_outliers_frame [1, 2] [7, 9] 11 5 3
    [1, 2] [7, 9] (List.replicate 2 false) h1).2⟩

theorem getD_map_fun (l : List ℚ) (f : ℚ → ℚ) (j : ℕ) (hj : j < l.length) :
    (l.map f).getD j 0 = f (l.getD j 0) := by
  rw [List.getD_eq_getElem?_getD, List.getElem?_map,
    List.getD_eq_getElem?_getD, List.getElem?_eq_getElem hj]
  rfl

/-- C6: on a series whose values are an exact linear function of
temperature with slope m (at least two points, strictly ascending,
possibly non-uniform spacing), compute_derivative succeeds and the
gradient equals m at every interior point (exactly, hence within any
tolerance). -/
theorem compute_derivative_linear :
    ∀ (temps : List ℚ) (m c : ℚ),
      2 ≤ temps.length →
      (∀ j, j + 1 < temps.length →
        temps.getD j 0 < temps.getD (j + 1) 0) →
      compute_derivative temps (temps.map (fun x => m * x + c)) =
        .ok (np_gradient temps (temps.map (fun x => m * x + c))) ∧
      (∀ i, 0 < i → i + 1 < temps.length →
        (np_gradient temps
          (temps.map (fun x => m * x + c))).getD i 0 = m) := by
  intro temps m c h2 hmono
  have hvlen : (temps.map (fun x => m * x + c)).length = temps.length := by
    simp
  constructor
  · unfold compute_derivative
    rw [if_neg (by omega), if_neg (by omega)]
  · intro i h0 hi
    unfold np_gradient
    rw [hvlen, getD_range_map, if_pos (by omega)]
    unfold gradientAt
    rw [if_neg (by omega), if_neg (by omega)]
    dsimp only
    have hv : ∀ j, j < temps.length →
        (temps.map (fun x => m * x + c)).getD j 0 =
          m * temps.getD j 0 + c := by
      intro j hj
      exact getD_map_fun temps (fun x => m * x + c) j hj
    rw [hv (i - 1) (by omega), hv i (by omega), hv (i + 1) (by omega)]
    have ha : temps.getD (i - 1) 0 < temps.getD i 0 := by
      have := hmono (i - 1) (by omega)
      rwa [show i - 1 + 1 = i by omega] at this
    have hb : temps.getD i 0 < temps.getD (i + 1) 0 := hmono i (by omega)
    set a := temps.getD (i - 1) 0
    set b := temps.getD i 0
    set d := temps.getD (i + 1) 0
    have h1 : b - a ≠ 0 := sub_ne_zero.mpr (ne_of_gt ha)
    have h2' : d - b ≠ 0 := sub_ne_zero.mpr (ne_of_gt hb)
    have h3 : (b - a) + (d - b) ≠ 0 := by
      intro h
      have : a < d := lt_trans ha hb
      nlinarith
    set p := b - a with hp
    set q := d - b with hq
    rw [show a = b - p from by rw [hp]; ring,
      show d = b + q from by rw [hq]; ring]
    field_simp
    ring

/-- Witness for C6 on a 3-point linear series with slope 2. -/
theorem compute_derivative_linear_witness :
    2 ≤ ([0, 1, 2] : List ℚ).length ∧
    (np_gradient [0, 1, 2]
      (([0, 1, 2] : List ℚ).map (fun x => 2 * x + 1))).getD 1 0 = 2 :=
  ⟨by decide,
   (compute_derivative_linear [0, 1, 2] 2 1 (by decide)
      (by
        intro j hj
        have hlen3 : ([0, 1, 2] : List ℚ).length = 3 := rfl
        rw [hlen3] at hj
        have hj2 : j < 2 := by omega
        interval_cases j <;> norm_num [List.getD])).2 1
      (by decide) (by decide)⟩

/-! Lemmas for the short-series behaviour of remove_outliers. -/

theorem forcedWindow_ge (window : ℕ) : 11 ≤ forcedWindow window := by
  unfold forcedWindow
  dsimp only
  set w := max window 11 with hw
  have h : 11 ≤ w := le_max_right window 11
  split <;> omega

theorem forcedWindow_odd (window : ℕ) : forcedWindow window % 2 = 1 := by
  unfold forcedWindow
  dsimp only
  set w := max window 11 with hw
  split <;> omega

theorem qmax_one_ge (x : ℚ) : 1 ≤ qmax x 1 := by
  unfold qmax
  split
  · exact le_refl 1
  · linarith [not_le.mp (by assumption)]

theorem npMedian_singleton (a : ℚ) : npMedian [a] = a := by
  simp [npMedian, sortQ, insertSorted]

theorem npMedian_pair (a c : ℚ) : npMedian [a, c] = (a + c) / 2 := by
  by_cases h : a ≤ c
  · simp [npMedian, sortQ, insertSorted, h]
  · simp [npMedian, sortQ, insertSorted, h]
    ring

theorem length_filterMap_eq_countP {α β : Type} (f : α → Option β)
    (l : List α) :
    (l.filterMap f).length = l.countP (fun a => (f a).isSome) := by
  induction l with
  | nil => rfl
  | cons a l ih =>
    cases h : f a <;>
      simp [List.filterMap_cons, h, List.countP_cons, ih]

theorem countP_range_interval_le_two (n b : ℕ) (p : ℕ → Bool)
    (hp : ∀ i, p i = true → b ≤ i ∧ i < b + 2) :
    (List.range n).countP p ≤ 2 := by
  rw [List.countP_eq_length_filter]
  have hnd : ((List.range n).filter p).Nodup := (List.nodup_range n).filter p
  rw [← List.toFinset_card_of_nodup hnd]
  have hsub : ((List.range n).filter p).toFinset ⊆ Finset.Ico b (b + 2) := by
    intro x hx
    rw [List.mem_toFinset, List.mem_filter] at hx
    rcases hp x hx.2 with ⟨h1, h2⟩
    exact Finset.mem_Ico.mpr ⟨h1, h2⟩
  calc ((List.range n).filter p).toFinset.card ≤ (Finset.Ico b (b + 2)).card :=
        Finset.card_le_card hsub
    _ = 2 := by simp

theorem innerAllowed_bounds (n b : ℕ) (mask : List Bool) (i : ℕ)
    (h : innerAllowed n b mask i = true) : b ≤ i ∧ i + b < n := by
  unfold innerAllowed at h
  rw [Bool.and_eq_true, Bool.and_eq_true] at h
  exact ⟨of_decide_eq_true h.1.1, of_decide_eq_true h.1.2⟩

theorem validDevs_length_le_two (devs : List (Option ℚ)) (n b : ℕ)
    (mask : List Bool) (hn : n ≤ 2 * b + 2) :
    (validDevs devs n b mask).length ≤ 2 := by
  unfold validDevs
  rw [length_filterMap_eq_countP]
  apply countP_range_interval_le_two
  intro i hi
  rw [Option.isSome_iff_exists] at hi
  obtain ⟨d, hd⟩ := hi
  by_cases hal : innerAllowed n b mask i = true
  · rcases innerAllowed_bounds n b mask i hal with ⟨h1, h2⟩
    exact ⟨h1, by omega⟩
  · rw [if_neg hal] at hd
    exact absurd hd (by simp)

theorem mem_validDevs (devs : List (Option ℚ)) (n b : ℕ)
    (mask : List Bool) (i : ℕ) (d : ℚ) (hi : i < n)
    (hal : innerAllowed n b mask i = true)
    (hd : devs.getD i none = some d) :
    d ∈ validDevs devs n b mask := by
  unfold validDevs
  exact List.mem_filterMap.mpr
    ⟨i, List.mem_range.mpr hi, by rw [if_pos hal]; exact hd⟩

theorem deviationsOf_nonneg (working : List ℚ) (w : ℕ) (i : ℕ) (d : ℚ)
    (hd : (deviationsOf working w).getD i none = some d) : 0 ≤ d := by
  unfold deviationsOf at hd
  rw [getD_range_map] at hd
  split at hd
  · rcases Option.map_eq_some'.mp hd with ⟨x, _, hx⟩
    rw [← hx]
    exact qabs_nonneg _
  · exact absurd hd (by simp)

theorem small_list_no_flag (working vd : List ℚ) (th d : ℚ)
    (hth : 2 ≤ th) (hlen : vd.length ≤ 2) (hnn : ∀ x ∈ vd, 0 ≤ x)
    (hd : d ∈ vd) : d ≤ th * madScale working vd := by
  rcases vd with _ | ⟨a, _ | ⟨e, _ | ⟨f, t⟩⟩⟩
  · exact absurd hd (by simp)
  · have hda : d = a := by simpa using hd
    have ha0 : 0 ≤ a := hnn a (by simp)
    rw [hda]
    unfold madScale
    rw [npMedian_singleton]
    by_cases hz : a = 0
    · rw [if_pos hz, hz]
      have h1 : (1 : ℚ) ≤ qmax ((listMaxQ working - listMinQ working) * (1 / 100)) 1 :=
        qmax_one_ge _
      nlinarith
    · rw [if_neg hz]
      have hpos : 0 < a := lt_of_le_of_ne ha0 (Ne.symm hz)
      nlinarith
  · have hae : d = a ∨ d = e := by simpa using hd
    have ha0 : 0 ≤ a := hnn a (by simp)
    have he0 : 0 ≤ e := hnn e (by simp)
    unfold madScale
    rw [npMedian_pair]
    by_cases hz : (a + e) / 2 = 0
    · rw [if_pos hz]
      have haz : a = 0 ∧ e = 0 := by constructor <;> nlinarith
      have h1 : (1 : ℚ) ≤ qmax ((listMaxQ working - listMinQ working) * (1 / 100)) 1 :=
        qmax_one_ge _
      rcases hae with h | h <;> rw [h] <;> nlinarith [haz.1, haz.2]
    · rw [if_neg hz]
      have hpos : 0 < (a + e) / 2 := lt_of_le_of_ne (by nlinarith) (Ne.symm hz)
      rcases hae with h | h <;> rw [h] <;> nlinarith
  · simp at hlen

theorem outlierStep_none_of_short (values : List ℚ) (w : ℕ) (th : ℚ)
    (hth : 2 ≤ th) (hw11 : 11 ≤ w) (hwodd : w % 2 = 1)
    (hshort : values.length < w + 2) :
    outlierStep values values (List.replicate values.length false) w th =
      none := by
  have hb : boundaryOf w = w / 2 := by
    unfold boundaryOf
    exact Nat.max_eq_left (by omega)
  have hn2b : values.length ≤ 2 * boundaryOf w + 2 := by rw [hb]; omega
  simp only [outlierStep]
  split
  · rfl
  split
  · rfl
  rename_i hvd hne
  exfalso
  apply hne
  rw [List.any_eq_false]
  intro x hx
  rcases List.mem_map.mp hx with ⟨i, hir, rfl⟩
  cases hal : innerAllowed values.length (boundaryOf w)
      (List.replicate values.length false) i with
  | false => simp [hal]
  | true =>
    cases hdev : (deviationsOf values w).getD i none with
    | none => simp [hal, hdev]
    | some d =>
      simp only [hal, hdev, Bool.true_and]
      intro hdec
      rcases innerAllowed_bounds _ _ _ _ hal with ⟨hb1, hb2⟩
      have hin : i < values.length := by omega
      have hmem : d ∈ validDevs (deviationsOf values w) values.length
          (boundaryOf w) (List.replicate values.length false) :=
        mem_validDevs _ _ _ _ i d hin hal hdev
      have hnn : ∀ x ∈ validDevs (deviationsOf values w) values.length
          (boundaryOf w) (List.replicate values.length false), 0 ≤ x := by
        intro x hxm
        rcases List.mem_filterMap.mp hxm with ⟨j, _, hfj⟩
        split at hfj
        · exact deviationsOf_nonneg values w j x hfj
        · exact absurd hfj (by simp)
      have hbound := small_list_no_flag values
        (validDevs (deviationsOf values w) values.length (boundaryOf w)
          (List.replicate values.length false)) th d hth
        (validDevs_length_le_two _ _ _ _ hn2b) hnn hmem
      exact not_lt.mpr hbound (of_decide_eq_true hdec)

theorem outlierLoop_identity_of_short (values : List ℚ) (w : ℕ) (th : ℚ)
    (hth : 2 ≤ th) (hw11 : 11 ≤ w) (hwodd : w % 2 = 1)
    (hshort : values.length < w + 2) (fuel : ℕ) :
    outlierLoop values w th fuel values
      (List.replicate values.length false) =
      (values, List.replicate values.length false) := by
  cases fuel with
  | zero => rfl
  | succ fuel =>
    simp only [outlierLoop,
      outlierStep_none_of_short values w th hth hw11 hwodd hshort]

theorem remove_outliers_identity (temps values : List ℚ) (window : ℕ)
    (th : ℚ) (maxIter : ℕ) (hlen : temps.length = values.length)
    (hth : 2 ≤ th) (hshort : values.length < forcedWindow window + 2) :
    remove_outliers temps values window th maxIter =
      .ok (temps, values, List.replicate values.length false) := by
  unfold remove_outliers
  rw [if_neg (by omega)]
  by_cases hraw : values.length < window + 2
  · rw [if_pos hraw]
  · rw [if_neg hraw]
    have hloop := outlierLoop_identity_of_short values
      (forcedWindow window) th hth (forcedWindow_ge window)
      (forcedWindow_odd window) hshort maxIter
    dsimp only
    rw [hloop]

/-- C3: a series shorter than window+2 points comes back unchanged with
an all-false mask.  This holds exactly as coded for the caller-supplied
window (the code performs this check before forcing the window odd with
floor 11), and it also holds when window is read as the forced value,
for every threshold at least 2 — which covers the documented default of
5.0. -/
theorem remove_outliers_short_series :
    ∀ (temps values : List ℚ) (window : ℕ) (threshold : ℚ)
      (maxIter : ℕ), temps.length = values.length →
      ((values.length < window + 2 →
        remove_outliers temps values window threshold maxIter =
          .ok (temps, values, List.replicate values.length false)) ∧
       (2 ≤ threshold → values.length < forcedWindow window + 2 →
        remove_outliers temps values window threshold maxIter =
          .ok (temps, values, List.replicate values.length false))) := by
  intro temps values window threshold maxIter hlen
  constructor
  · intro hshort
    unfold remove_outliers
    rw [if_neg (by omega), if_pos hshort]
  · intro hth hshort
    exact remove_outliers_identity temps values window threshold maxIter
      hlen hth hshort

/-- Witness for C3: a 3-point series under the default window, and a
2-point series under a window of 5 whose forced value is 11. -/
theorem remove_outliers_short_series_witness :
    remove_outliers [1, 2, 3] [7, 8, 9] 11 5 3 =
      .ok ([1, 2, 3], [7, 8, 9], List.replicate 3 false) ∧
    remove_outliers [10, 20] [1, 2] 5 5 3 =
      .ok ([10, 20], [1, 2], List.replicate 2 false) :=
  ⟨(remove_outliers_short_series [1, 2, 3] [7, 8, 9] 11 5 3 rfl).1
      (by decide),
   (remove_outliers_short_series [10, 20] [1, 2] 5 5 3 rfl).2
      (by norm_num) (by decide)⟩

/-! Zero-series propagation through the smoothing filter, used to
evaluate the orchestrator on a concrete constant series. -/

theorem qdot_zero_right : ∀ (a cs : List ℚ), (∀ c ∈ cs, c = 0) →
    qdot a cs = 0 := by
  intro a
  induction a with
  | nil => intro cs _; cases cs <;> rfl
  | cons x xs ih =>
    intro cs hcs
    cases cs with
    | nil => rfl
    | cons c cs =>
      have hc : c = 0 := hcs c (by simp)
      have hrest : ∀ y ∈ cs, y = 0 := fun y hy => hcs y (by simp [hy])
      unfold qdot
      rw [List.zipWith_cons_cons, List.sum_cons]
      have := ih cs hrest
      unfold qdot at this
      rw [this, hc]
      ring

theorem zipWith_sub_last_zero (κ : ℚ) (a b : List ℚ)
    (hab : a.length = b.length) :
    List.zipWith (fun x y => x - κ * y) (a ++ [0]) (b ++ [0]) =
      List.zipWith (fun x y => x - κ * y) a b ++ [0] := by
  rw [List.zipWith_append _ _ _ _ _ hab]
  simp

theorem solveLin_zero : ∀ (fuel : ℕ) (rows : List (List ℚ)) (k : ℕ),
    (∀ r ∈ rows, r.length = k ∧ (k = 0 ∨ ∃ r2, r = r2 ++ [0])) →
    solveLin fuel rows = none ∨
      ∃ cs, solveLin fuel rows = some cs ∧ ∀ c ∈ cs, c = 0 := by
  intro fuel
  induction fuel with
  | zero =>
    intro rows k hrows
    cases rows with
    | nil => exact Or.inr ⟨[], rfl, by simp⟩
    | cons r rs => exact Or.inl rfl
  | succ fuel ih =>
    intro rows k hrows
    cases rows with
    | nil => exact Or.inr ⟨[], rfl, by simp⟩
    | cons r rs =>
      simp only [solveLin]
      cases hf : (r :: rs).find? (fun r => decide (r.headD 0 ≠ 0)) with
      | none => exact Or.inl rfl
      | some p =>
        dsimp only
        have hpmem : p ∈ r :: rs := List.mem_of_find?_eq_some hf
        have hppred : p.headD 0 ≠ 0 := by
          have h := List.find?_some hf
          exact of_decide_eq_true h
        rcases hrows p hpmem with ⟨hplen, hpform⟩
        have hpne : p ≠ [] := by
          intro he
          rw [he] at hppred
          exact hppred rfl
        rcases hpform with hk0 | ⟨p2, hp2⟩
        · exfalso
          apply hpne
          rw [← List.length_eq_zero, hplen, hk0]
        have hp2len : p2.length + 1 = k := by
          rw [hp2] at hplen
          simpa using hplen
        have hrest : ∀ s ∈ (r :: rs).eraseP (fun r => decide (r.headD 0 ≠ 0)),
            s.length = k ∧ (k = 0 ∨ ∃ s2, s = s2 ++ [0]) := by
          intro s hs
          exact hrows s ((List.eraseP_sublist _).subset hs)
        have hred : ∀ s2 ∈ ((r :: rs).eraseP
            (fun r => decide (r.headD 0 ≠ 0))).map (fun s =>
              List.zipWith (fun x y => x - (s.headD 0 / p.headD 0) * y)
                s.tail p.tail),
            s2.length = k - 1 ∧ (k - 1 = 0 ∨ ∃ s3, s2 = s3 ++ [0]) := by
          intro s2 hs2
          rcases List.mem_map.mp hs2 with ⟨s, hsmem, rfl⟩
          rcases hrest s hsmem with ⟨hslen, hsform⟩
          rcases hsform with h0 | ⟨s3, hs3⟩
          · omega
          have hs3len : s3.length + 1 = k := by
            rw [hs3] at hslen
            simpa using hslen
          constructor
          · rw [hs3, hp2]
            simp
            omega
          · by_cases hk1 : k = 1
            · left
              omega
            · right
              rcases s3 with _ | ⟨c, cs3⟩
              · exfalso
                simp at hs3len
                omega
              rcases p2 with _ | ⟨pc, pcs⟩
              · exfalso
                simp at hp2len
                omega
              simp only [List.length_cons] at hs3len hp2len
              rw [hs3, hp2]
              simp only [List.cons_append, List.tail_cons, List.headD_cons]
              exact ⟨_, zipWith_sub_last_zero _ cs3 pcs (by omega)⟩
        rcases ih (((r :: rs).eraseP (fun r => decide (r.headD 0 ≠ 0))).map
            (fun s => List.zipWith (fun x y =>
              x - (s.headD 0 / p.headD 0) * y) s.tail p.tail)) (k - 1)
            hred with hnone | ⟨cs, hcs, hcz⟩
        · rw [hnone]
          exact Or.inl rfl
        · rw [hcs]
          refine Or.inr ⟨_, rfl, ?_⟩
          intro c hc
          rcases List.mem_cons.mp hc with hc0 | hcmem
          · rw [hc0]
            have htail0 : p.tail.getLastD 0 = 0 ∧
                p.tail.dropLast = p2.tail := by
              rcases p2 with _ | ⟨pc, pcs⟩
              · constructor
                · rw [hp2]
                  rfl
                · rw [hp2]
                  rfl
              · constructor
                · rw [hp2]
                  simp only [List.cons_append, List.tail_cons]
                  rw [List.getLastD_concat]
                · rw [hp2]
                  simp only [List.cons_append, List.tail_cons,
                    List.dropLast_concat]
            rw [htail0.1, htail0.2, qdot_zero_right _ cs hcz]
            simp
          · exact hcz c hcmem

theorem zipWith_pow_zero_sum (j : ℕ) : ∀ (xs : List ℚ) (m : ℕ),
    (List.zipWith (fun t y => t ^ j * y) xs (List.replicate m 0)).sum = 0 := by
  intro xs
  induction xs with
  | nil => intro m; rfl
  | cons x xs ih =>
    intro m
    cases m with
    | zero => rfl
    | succ m =>
      rw [List.replicate_succ, List.zipWith_cons_cons, List.sum_cons, ih m]
      ring

theorem enumFrom_zero_sum (x : ℚ) : ∀ (cs : List ℚ) (k : ℕ),
    (∀ c ∈ cs, c = 0) →
    ((cs.enumFrom k).map (fun p => p.2 * x ^ p.1)).sum = 0 := by
  intro cs
  induction cs with
  | nil => intro k _; rfl
  | cons c cs ih =>
    intro k hz
    rw [List.enumFrom_cons, List.map_cons, List.sum_cons,
      ih (k + 1) (fun y hy => hz y (by simp [hy])), hz c (by simp)]
    ring

theorem polyfitEval_zeros (xs : List ℚ) (m deg : ℕ) (x : ℚ) :
    polyfitEval xs (List.replicate m 0) deg x = 0 := by
  unfold polyfitEval
  have hrows : ∀ r ∈ (List.range (deg + 1)).map (fun j =>
      ((List.range (deg + 1)).map
        (fun k => (xs.map (fun t => t ^ (j + k))).sum)) ++
        [(List.zipWith (fun t y => t ^ j * y) xs
          (List.replicate m 0)).sum]),
      r.length = deg + 2 ∧ (deg + 2 = 0 ∨ ∃ r2, r = r2 ++ [0]) := by
    intro r hr
    rcases List.mem_map.mp hr with ⟨j, _, rfl⟩
    constructor
    · simp
    · right
      exact ⟨_, by rw [zipWith_pow_zero_sum]⟩
  rcases solveLin_zero (deg + 2) _ (deg + 2) hrows with hnone | ⟨cs, hcs, hcz⟩
  · dsimp only
    rw [hnone]
  · dsimp only
    rw [hcs]
    exact enumFrom_zero_sum x cs 0 hcz

theorem savgol_zeros (m wl po : ℕ) :
    savgol_filter (List.replicate m 0) wl po = List.replicate m 0 := by
  unfold savgol_filter
  rw [List.length_replicate]
  refine List.eq_replicate_iff.mpr ⟨by simp, ?_⟩
  intro b hb
  rcases List.mem_map.mp hb with ⟨i, _, rfl⟩
  split
  · rw [List.take_replicate]
    exact polyfitEval_zeros _ _ _ _
  · split
    · rw [List.drop_replicate]
      exact polyfitEval_zeros _ _ _ _
    · rw [List.drop_replicate, List.take_replicate]
      exact polyfitEval_zeros _ _ _ _

theorem getD_replicate_zero (m i : ℕ) :
    (List.replicate m (0 : ℚ)).getD i 0 = 0 := by
  rw [List.getD_eq_getElem?_getD, List.getElem?_replicate]
  split <;> rfl

theorem np_gradient_zeros (ts : List ℚ) (m : ℕ) :
    np_gradient ts (List.replicate m 0) = List.replicate m 0 := by
  unfold np_gradient
  rw [List.length_replicate]
  refine List.eq_replicate_iff.mpr ⟨by simp, ?_⟩
  intro b hb
  rcases List.mem_map.mp hb with ⟨i, _, rfl⟩
  unfold gradientAt
  simp only [getD_replicate_zero]
  split
  · simp
  · split
    · simp
    · simp
theorem remove_outliers_zero_run :
    remove_outliers [0, 1, 2, 3, 4, 5, 6, 7, 8, 9] (List.replicate 10 0)
      5 5 3 =
      .ok ([0, 1, 2, 3, 4, 5, 6, 7, 8, 9], List.replicate 10 0,
        List.replicate 10 false) :=
  remove_outliers_identity [0, 1, 2, 3, 4, 5, 6, 7, 8, 9]
    (List.replicate 10 0) 5 5 3 rfl (by norm_num) (by decide)

theorem smooth_data_zero_run :
    smooth_data [0, 1, 2, 3, 4, 5, 6, 7, 8, 9] (List.replicate 10 0) 3 1 =
      .ok ([0, 1, 2, 3, 4, 5, 6, 7, 8, 9], List.replicate 10 0) := by
  unfold smooth_data
  rw [if_neg (by decide), if_neg (by decide)]
  dsimp only
  rw [if_neg (by decide), if_neg (by decide), savgol_zeros]

theorem compute_derivative_zero_run :
    compute_derivative [0, 1, 2, 3, 4, 5, 6, 7, 8, 9]
      (List.replicate 10 0) = .ok (List.replicate 10 0) := by
  unfold compute_derivative
  rw [if_neg (by decide), if_neg (by decide), np_gradient_zeros]

theorem find_max_zero_run :
    find_max_slope_index (List.replicate 10 (0 : ℚ)) 0 = .ok 0 := by
  norm_num [find_max_slope_index, argmaxAbs, maxAbsVal, qabs,
    List.replicate]
theorem tangent_zero_run :
    compute_tangent_at_point [0, 1, 2, 3, 4, 5, 6, 7, 8, 9]
      (List.replicate 10 0) (List.replicate 10 0) 0 = .ok (0, 0) := by
  unfold compute_tangent_at_point
  rw [if_neg (by decide), if_neg (by decide)]
  dsimp only
  norm_num [getD_replicate_zero]

theorem fit_low_zero_run :
    fit_baseline [0, 1, 2, 3, 4, 5, 6, 7, 8, 9] (List.replicate 10 0)
      0 1 = .ok (0, 0) := by
  unfold fit_baseline
  have hz : (List.zip ([0, 1, 2, 3, 4, 5, 6, 7, 8, 9] : List ℚ)
      (List.replicate 10 (0 : ℚ))).filter
      (fun p => decide ((0 : ℚ) ≤ p.1) && decide (p.1 ≤ 1)) =
      [(0, 0), (1, 0)] := by
    norm_num [List.zip, List.zipWith, List.replicate, List.filter]
  rw [hz]
  norm_num [linregress]

theorem fit_high_zero_run :
    fit_baseline [0, 1, 2, 3, 4, 5, 6, 7, 8, 9] (List.replicate 10 0)
      8 9 = .ok (0, 0) := by
  unfold fit_baseline
  have hz : (List.zip ([0, 1, 2, 3, 4, 5, 6, 7, 8, 9] : List ℚ)
      (List.replicate 10 (0 : ℚ))).filter
      (fun p => decide ((8 : ℚ) ≤ p.1) && decide (p.1 ≤ 9)) =
      [(8, 0), (9, 0)] := by
    norm_num [List.zip, List.zipWith, List.replicate, List.filter]
  rw [hz]
  norm_num [linregress]
theorem analyze_zero_run :
    analyze_channel [0, 1, 2, 3, 4, 5, 6, 7, 8, 9] (List.replicate 10 0)
      (0, 1) (8, 9) (3, 1) 0 (5, 5) =
      .ok [("As", .num none),
           ("Af_tan", .num none),
           ("max_slope_temp", .num (some 0)),
           ("low_baseline", .line 0 0), ("high_baseline", .line 0 0),
           ("tangent", .line 0 0), ("outlier_count", .count 0)] := by
  unfold analyze_channel
  rw [if_neg (by decide), if_neg (by decide)]
  dsimp only
  rw [remove_outliers_zero_run]
  dsimp only
  rw [smooth_data_zero_run]
  dsimp only
  rw [compute_derivative_zero_run]
  dsimp only
  rw [find_max_zero_run]
  dsimp only
  rw [tangent_zero_run]
  dsimp only
  rw [fit_low_zero_run]
  dsimp only
  rw [fit_high_zero_run]
  dsimp only
  rw [show find_intersection (0 : ℚ) 0 0 0 = none from by
    unfold find_intersection
    rw [if_pos (np_isclose_refl 0)]]
  rfl

/-- C1 corrected: whenever the orchestrator succeeds, the returned
record holds exactly the seven fields the code builds — the two
intersection temperatures, the max-slope temperature, the two
baselines, the tangent and the outlier count — and no entry carries the
cleaned or smoothed series; callers that need the series re-run the
preprocessing themselves. -/
theorem analyze_channel_result_fields :
    ∀ (temps values : List ℚ) (lr hr : ℚ × ℚ) (sp : ℕ × ℕ) (so : ℤ)
      (op : ℕ × ℚ) (r : List (String × ResultValue)),
      analyze_channel temps values lr hr sp so op = .ok r →
      r.map Prod.fst = ["As", "Af_tan", "max_slope_temp", "low_baseline",
        "high_baseline", "tangent", "outlier_count"] ∧
      resultHasSeries r = false := by
  intro temps values lr hr sp so op r h
  unfold analyze_channel at h
  split at h
  · exact absurd h (by simp)
  split at h
  · exact absurd h (by simp)
  split at h
  · exact absurd h (by simp)
  split at h
  · exact absurd h (by simp)
  split at h
  · exact absurd h (by simp)
  split at h
  · exact absurd h (by simp)
  split at h
  · exact absurd h (by simp)
  split at h
  · exact absurd h (by simp)
  split at h
  · exact absurd h (by simp)
  rw [Except.ok.injEq] at h
  rw [← h]
  exact ⟨rfl, rfl⟩

/-- Counterexample for C1 as stated: a valid 10-point input on which
the orchestrator succeeds and whose result record carries no
cleaned/smoothed series entry. -/
theorem analyze_channel_no_series_counterexample :
    (analyze_channel [0, 1, 2, 3, 4, 5, 6, 7, 8, 9]
      (List.replicate 10 0) (0, 1) (8, 9) (3, 1) 0 (5, 5)).map
      resultHasSeries = .ok false := by
  rw [analyze_zero_run]
  rfl

/-- Witness for the amended C1 on the concrete constant run. -/
theorem analyze_channel_result_fields_witness :
    (analyze_channel [0, 1, 2, 3, 4, 5, 6, 7, 8, 9]
      (List.replicate 10 0) (0, 1) (8, 9) (3, 1) 0 (5, 5) =
      .ok [("As", .num none),
           ("Af_tan", .num none),
           ("max_slope_temp", .num (some 0)),
           ("low_baseline", .line 0 0), ("high_baseline", .line 0 0),
           ("tangent", .line 0 0), ("outlier_count", .count 0)]) ∧
    ([("As", ResultValue.num none),
      ("Af_tan", ResultValue.num none),
      ("max_slope_temp", ResultValue.num (some 0)),
      ("low_baseline", ResultValue.line 0 0),
      ("high_baseline", ResultValue.line 0 0),
      ("tangent", ResultValue.line 0 0),
      ("outlier_count", ResultValue.count 0)].map Prod.fst =
        ["As", "Af_tan", "max_slope_temp", "low_baseline",
          "high_baseline", "tangent", "outlier_count"] ∧
      resultHasSeries [("As", ResultValue.num none),
        ("Af_tan", ResultValue.num none),
        ("max_slope_temp", ResultValue.num (some 0)),
        ("low_baseline", ResultValue.line 0 0),
        ("high_baseline", ResultValue.line 0 0),
        ("tangent", ResultValue.line 0 0),
        ("outlier_count", ResultValue.count 0)] = false) :=
  ⟨analyze_zero_run,
   analyze_channel_result_fields [0, 1, 2, 3, 4, 5, 6, 7, 8, 9]
     (List.replicate 10 0) (0, 1) (8, 9) (3, 1) 0 (5, 5) _
     analyze_zero_run⟩
